import Mathlib

/-!
Verification of the inccash proof-of-work ledger server.

The repository contains three variants of the same Express server
(`src/server.js` and two unnamed variants, `src/unnamed/part_000` and
`src/unnamed/part_001`).  The core ledger engine — hashing, mining,
validation, difficulty adjustment, genesis initialization and the two
mutating endpoints — is embedded here as pure Lean functions.

Modelling conventions:
* SHA-256 (`crypto.createHash('sha256')...digest('hex')`) is an external
  primitive; the embedding is parameterized by an abstract digest
  `H : String → String`.  The transaction digest
  (SHA-256 of `JSON.stringify({transactionId, amount})`) is likewise a
  parameter `D : String → Rat → String`, since JSON float serialization
  is not part of the core.  Miner and validator share the same `H`/`D`,
  which is the consistency the spec requires.
* JS numbers used as amounts are modelled by `JNum` (finite rational,
  NaN, ±Infinity); integer-valued fields (index, nonce, timestamp,
  difficulty) are `Nat`.
* The unbounded `do { nonce++ } while (...)` mining loop is given a
  fuel parameter; `none` means the search is still running after `fuel`
  candidate nonces.
* `Date.now()` values are passed in as explicit `timestamp` arguments.
-/

namespace IncCash

/-- Model of a JS number as used for request amounts: a finite rational,
NaN, or an infinity. -/
inductive JNum where
  | nan
  | posInf
  | negInf
  | fin (q : Rat)
deriving DecidableEq, Repr

/-- `Number.isFinite(x)` for the modelled JS number. -/
def JNum.isFinite : JNum → Bool
  | .fin _ => true
  | _ => false

/-- The JS comparison `x <= 0` (NaN compares false). -/
def JNum.leZero : JNum → Bool
  | .nan => false
  | .posInf => false
  | .negInf => true
  | .fin q => decide (q ≤ 0)

/-- The rational value of a finite modelled JS number (0 otherwise;
only used on paths where finiteness has already been checked). -/
def JNum.toRat : JNum → Rat
  | .fin q => q
  | _ => 0

/-- JS truthiness of an optional string request field
(`!transactionId` rejects a missing or empty string). -/
def truthyStr : Option String → Bool
  | none => false
  | some s => !(s == "")

/-- A block as constructed by `mineBlock` in the source.  `miningTimeMs`
is wall-clock observability metadata, never part of any hash preimage or
check; the embedding fixes it to 0. -/
structure Block where
  chainId : String
  blockId : String
  index : Nat
  prevHash : String
  transactionHash : String
  nonce : Nat
  hash : String
  timestamp : Nat
  transactionId : String
  amount : Rat
  miningTimeMs : Nat
deriving DecidableEq, Repr

/-- Default block used with `List.getD`; all source accesses guarded to
be in bounds. -/
def blankBlock : Block :=
  { chainId := "", blockId := "", index := 0, prevHash := "",
    transactionHash := "", nonce := 0, hash := "", timestamp := 0,
    transactionId := "", amount := 0, miningTimeMs := 0 }

/-- The `transactionRules` JSON object: an association list from
transaction id to configured amount. -/
abbrev Rules := List (String × Rat)

/-- The module-level mutable state of the server:
`balance`, `transactionRules`, `blockchain`, `difficulty`, `chainId`. -/
structure ServerState where
  balance : Rat
  transactionRules : Rules
  blockchain : List Block
  difficulty : Nat
  chainId : String
deriving DecidableEq, Repr

section Core

/- `H` models the hex SHA-256 digest, `D` the transaction digest
`sha256(JSON.stringify({transactionId, amount}))`. -/
variable (H : String → String) (D : String → Rat → String)

/-- Source `makeBlockId(index, transactionId, timestamp)`:
sha256 of `index + ":" + transactionId + ":" + timestamp`. -/
def makeBlockId (index : Nat) (transactionId : String) (timestamp : Nat) : String :=
  H (toString index ++ ":" ++ transactionId ++ ":" ++ toString timestamp)

/-- Source `calculateHash(index, prevHash, transactionHash, nonce,
timestamp, chainIdLocal, blockIdSeed)`: sha256 of the seven fields
concatenated in order (numbers in decimal). -/
def calculateHash (index : Nat) (prevHash transactionHash : String)
    (nonce timestamp : Nat) (chainIdLocal blockIdSeed : String) : String :=
  H (toString index ++ prevHash ++ transactionHash ++ toString nonce ++
     toString timestamp ++ chainIdLocal ++ blockIdSeed)

/-- `h.startsWith('0'.repeat(n))`: the string `h` has at least `n`
leading '0' characters. -/
def startsWithZeros (n : Nat) (h : String) : Bool :=
  (List.replicate n '0').isPrefixOf h.data

/-- The `do { nonce++; hash = calculateHash(...) } while
(!hash.startsWith(prefix))` loop of `mineBlock`, with fuel.  `nonce` is
the value before the first increment (0 at the initial call); returns
the first successful nonce together with its hash. -/
def mineSearch (index : Nat) (prevHash transactionHash : String)
    (timestamp : Nat) (cid blockId : String) (diff : Nat) :
    Nat → Nat → Option (Nat × String)
  | 0, _ => none
  | fuel + 1, nonce =>
    let n := nonce + 1
    let h := calculateHash H index prevHash transactionHash n timestamp cid blockId
    if startsWithZeros diff h then some (n, h)
    else mineSearch index prevHash transactionHash timestamp cid blockId diff fuel n

/-- Source `mineBlock(index, prevHash, transactionId, amount, diff)`.
The enclosing module's `chainId` global is the `cid` argument, the
ambient `Date.now()` is `timestamp`, and the unbounded nonce search is
bounded by `fuel` (`none` = still mining). -/
def mineBlock (cid : String) (index : Nat) (prevHash : String)
    (transactionId : String) (amount : Rat) (diff timestamp fuel : Nat) :
    Option Block :=
  let transactionHash := D transactionId amount
  let blockId := makeBlockId H index transactionId timestamp
  match mineSearch H index prevHash transactionHash timestamp cid blockId diff fuel 0 with
  | none => none
  | some (n, h) =>
    some { chainId := cid, blockId := blockId, index := index,
           prevHash := prevHash, transactionHash := transactionHash,
           nonce := n, hash := h, timestamp := timestamp,
           transactionId := transactionId, amount := amount,
           miningTimeMs := 0 }

/-- The per-pair body of the `isBlockchainValid` loop at `(prev, curr)`:
chain-identity of both blocks, hash linkage, exact hash recomputation,
and the proof-of-work check at the chain's current difficulty (capped at
the hash's length, per `Math.min(difficulty, curr.hash.length)`). -/
def blockPairOk (cid : String) (difficulty : Nat) (prev curr : Block) : Bool :=
  (curr.chainId == cid) && (prev.chainId == cid) &&
  (curr.prevHash == prev.hash) &&
  (calculateHash H curr.index curr.prevHash curr.transactionHash
     curr.nonce curr.timestamp curr.chainId curr.blockId == curr.hash) &&
  startsWithZeros (min difficulty curr.hash.length) curr.hash

/-- The `for (let i = 1; i < chain.length; i++)` loop of
`isBlockchainValid`, rolled as recursion on the tail: the accumulator is
the previous block. -/
def validFrom (cid : String) (difficulty : Nat) : Block → List Block → Bool
  | _, [] => true
  | prev, curr :: rest =>
    blockPairOk H cid difficulty prev curr && validFrom cid difficulty curr rest

/-- Source `isBlockchainValid(chain)` on an array value: empty chains
are valid; otherwise each adjacent pair must pass `blockPairOk`,
short-circuiting at the first failure. -/
def isBlockchainValid (cid : String) (difficulty : Nat) : List Block → Bool
  | [] => true
  | b :: rest => validFrom H cid difficulty b rest

/-- A JSON value in the persisted state's `blockchain` field, as far as
`Array.isArray` distinguishes it: an array of blocks or any non-array
value (null, undefined, number, string, plain object). -/
inductive ChainField where
  | arr (blocks : List Block)
  | nullv
  | undef
  | num (q : Rat)
  | str (s : String)
  | obj
deriving DecidableEq, Repr

/-- Source `isBlockchainValid` including its
`if (!Array.isArray(chain) || chain.length === 0) return true;` guard:
any non-array input is declared valid. -/
def isBlockchainValidAny (cid : String) (difficulty : Nat) : ChainField → Bool
  | .arr blocks => isBlockchainValid H cid difficulty blocks
  | _ => true

end Core

/-- Source constant `TARGET_BLOCK_TIME_MS = 3000`. -/
def TARGET_BLOCK_TIME_MS : Nat := 3000

/-- Source constant `DIFFICULTY_ADJUSTMENT_INTERVAL = 5`. -/
def DIFFICULTY_ADJUSTMENT_INTERVAL : Nat := 5

/-- Source `adjustDifficultyIfNeeded()`: reads the (already appended)
blockchain and the current difficulty, returns the new difficulty.
Timestamp differences are computed in `Int` (JS subtraction may be
negative under clock skew). -/
def adjustDifficultyIfNeeded (blockchain : List Block) (difficulty : Nat) : Nat :=
  let len := blockchain.length
  if 1 < len ∧ len % DIFFICULTY_ADJUSTMENT_INTERVAL = 0 then
    let start := len - DIFFICULTY_ADJUSTMENT_INTERVAL
    let endIdx := len - 1
    let actual : Int := ((blockchain.getD endIdx blankBlock).timestamp : Int) -
                        ((blockchain.getD start blankBlock).timestamp : Int)
    let expected : Int := (TARGET_BLOCK_TIME_MS * DIFFICULTY_ADJUSTMENT_INTERVAL : Nat)
    if actual < expected / 2 then difficulty + 1
    else if expected * 2 < actual ∧ 1 < difficulty then difficulty - 1
    else difficulty
  else difficulty

section Ops

variable (H : String → String) (D : String → Rat → String)

/-- The append sequence shared verbatim by the mutating handlers:
read the tip (`blockchain[blockchain.length - 1]`; `none` = the JS
TypeError on an empty array), mine the next block, push it, credit the
balance, and run difficulty adjustment on the grown chain.  (The
webhook handler credits the balance before mining; the completed-state
result is identical.) -/
def appendCore (st : ServerState) (transactionId : String) (amt : Rat)
    (timestamp fuel : Nat) : Option (ServerState × Block) :=
  match st.blockchain.getLast? with
  | none => none
  | some prev =>
    match mineBlock H D st.chainId st.blockchain.length prev.hash
        transactionId amt st.difficulty timestamp fuel with
    | none => none
    | some b =>
      let blockchain := st.blockchain ++ [b]
      some ({ st with
                blockchain := blockchain,
                balance := st.balance + amt,
                difficulty := adjustDifficultyIfNeeded blockchain st.difficulty },
            b)

/-- Outcome of a `POST /deposit` request.  Rejections carry the
(unchanged) server state; `stalled` covers the runs that never produce
a response (mining past the fuel bound, or the TypeError thrown when
the chain is empty). -/
inductive DepositOutcome where
  | badRequest (st : ServerState)
  | chainInvalid (st : ServerState)
  | ok (st : ServerState) (b : Block)
  | stalled
deriving DecidableEq, Repr

/-- `app.post('/deposit')` of `src/server.js`: input guard
(`!transactionId || !Number.isFinite(amt) || amt <= 0` → 400), then
`isBlockchainValid` (→ 500), then mine/push/credit/adjust/save. -/
def deposit (st : ServerState) (transactionId : Option String) (amt : JNum)
    (timestamp fuel : Nat) : DepositOutcome :=
  if !truthyStr transactionId || !amt.isFinite || amt.leZero then
    .badRequest st
  else if !isBlockchainValid H st.chainId st.difficulty st.blockchain then
    .chainInvalid st
  else
    match appendCore H D st (transactionId.getD "") amt.toRat timestamp fuel with
    | none => .stalled
    | some (st', b) => .ok st' b

/-- `app.post('/deposit')` of `src/unnamed/part_001`: same input guard,
but no `isBlockchainValid` call before mutating. -/
def deposit001 (st : ServerState) (transactionId : Option String) (amt : JNum)
    (timestamp fuel : Nat) : DepositOutcome :=
  if !truthyStr transactionId || !amt.isFinite || amt.leZero then
    .badRequest st
  else
    match appendCore H D st (transactionId.getD "") amt.toRat timestamp fuel with
    | none => .stalled
    | some (st', b) => .ok st' b

/-- A Square webhook event body as far as the handler inspects it:
`event.type`, `event.data.id`, plus the payment amount carried by real
payloads, which the handler never reads. -/
structure HookEvent where
  type : String
  dataId : String
  payloadAmount : Rat
deriving DecidableEq, Repr

/-- Outcome of a `POST /square-webhook` request.  `okUnchanged` is the
200 response with no state change; `appended` the 200 response after an
append. -/
inductive HookOutcome where
  | unauthorized (st : ServerState)
  | chainInvalid (st : ServerState)
  | okUnchanged (st : ServerState)
  | appended (st : ServerState) (b : Block)
  | stalled
deriving DecidableEq, Repr

/-- `app.post('/square-webhook')`: signature gate (modelled by the
boolean result `sigOk` of `isValidSquareSignature`, which is HMAC glue),
`isBlockchainValid` gate, then — only for a `payment.created` event
whose payment id maps to a truthy (nonzero) rule amount — an append of
that configured amount. -/
def squareWebhook (st : ServerState) (sigOk : Bool) (ev : HookEvent)
    (timestamp fuel : Nat) : HookOutcome :=
  if !sigOk then .unauthorized st
  else if !isBlockchainValid H st.chainId st.difficulty st.blockchain then
    .chainInvalid st
  else if ev.type == "payment.created" then
    match st.transactionRules.lookup ev.dataId with
    | none => .okUnchanged st
    | some q =>
      if q == 0 then .okUnchanged st
      else
        match appendCore H D st ev.dataId q timestamp fuel with
        | none => .stalled
        | some (st', b) => .appended st' b
  else .okUnchanged st

/-- Genesis initialization of `src/server.js` (lines 144–167): three
blocks mined at the current difficulty — the fixed first and second
transaction ids, then the last key of `transactionRules` (on an empty
rules object the JS indexes with `undefined`, which stringifies to
"undefined").  Block amounts come from `transactionRules[txId] ?? 0`. -/
def initGenesis (cid : String) (rules : Rules) (difficulty : Nat)
    (ts1 ts2 ts3 fuel : Nat) : Option (List Block) :=
  let firstTxId := "nynvg5vw3srg1g3k5qmqqe13x"
  match mineBlock H D cid 0 "0" firstTxId ((rules.lookup firstTxId).getD 0)
      difficulty ts1 fuel with
  | none => none
  | some g1 =>
    let secondTxId := "9KWCWTX3D"
    match mineBlock H D cid 1 g1.hash secondTxId ((rules.lookup secondTxId).getD 0)
        difficulty ts2 fuel with
    | none => none
    | some g2 =>
      let lastTxId := (rules.map Prod.fst).getLastD "undefined"
      match mineBlock H D cid 2 g2.hash lastTxId ((rules.lookup lastTxId).getD 0)
          difficulty ts3 fuel with
      | none => none
      | some g3 => some [g1, g2, g3]

/-- Genesis initialization of `src/unnamed/part_001` (lines 98–115):
identical three-block sequence except that an empty rules object falls
back to the literal id "initial-tx". -/
def initGenesis001 (cid : String) (rules : Rules) (difficulty : Nat)
    (ts1 ts2 ts3 fuel : Nat) : Option (List Block) :=
  let firstTxId := "nynvg5vw3srg1g3k5qmqqe13x"
  match mineBlock H D cid 0 "0" firstTxId ((rules.lookup firstTxId).getD 0)
      difficulty ts1 fuel with
  | none => none
  | some g1 =>
    let secondTxId := "9KWCWTX3D"
    match mineBlock H D cid 1 g1.hash secondTxId ((rules.lookup secondTxId).getD 0)
        difficulty ts2 fuel with
    | none => none
    | some g2 =>
      let lastTxId := (rules.map Prod.fst).getLastD "initial-tx"
      match mineBlock H D cid 2 g2.hash lastTxId ((rules.lookup lastTxId).getD 0)
          difficulty ts3 fuel with
      | none => none
      | some g3 => some [g1, g2, g3]

/-- Startup chain handling of `src/server.js`:
`if (!blockchain || blockchain.length === 0)` → reinitialize genesis
blocks; otherwise the loaded chain is kept as is (no validity check). -/
def startupChain (loaded : Option (List Block)) (cid : String) (rules : Rules)
    (difficulty : Nat) (ts1 ts2 ts3 fuel : Nat) : Option (List Block) :=
  match loaded with
  | none => initGenesis H D cid rules difficulty ts1 ts2 ts3 fuel
  | some bc =>
    if bc.length = 0 then initGenesis H D cid rules difficulty ts1 ts2 ts3 fuel
    else some bc

/-- Startup chain handling of `src/unnamed/part_001`:
`if (!blockchain || !isBlockchainValid(blockchain) || blockchain.length
=== 0)` → reinitialize genesis blocks; otherwise keep the loaded
chain. -/
def startupChain001 (loaded : Option (List Block)) (cid : String) (rules : Rules)
    (difficulty : Nat) (ts1 ts2 ts3 fuel : Nat) : Option (List Block) :=
  match loaded with
  | none => initGenesis001 H D cid rules difficulty ts1 ts2 ts3 fuel
  | some bc =>
    if !isBlockchainValid H cid difficulty bc ∨ bc.length = 0 then
      initGenesis001 H D cid rules difficulty ts1 ts2 ts3 fuel
    else some bc

/-- States reachable by genesis initialization followed by successful
deposit and webhook appends (the only mutations of the chain). -/
inductive Reachable : ServerState → Prop
  | boot (balance : Rat) (rules : Rules) (difficulty : Nat) (cid : String)
      (ts1 ts2 ts3 fuel : Nat) (bc : List Block)
      (h : initGenesis H D cid rules difficulty ts1 ts2 ts3 fuel = some bc) :
      Reachable ⟨balance, rules, bc, difficulty, cid⟩
  | dep (st : ServerState) (tx : Option String) (amt : JNum) (ts fuel : Nat)
      (st' : ServerState) (b : Block) (hr : Reachable st)
      (h : deposit H D st tx amt ts fuel = .ok st' b) : Reachable st'
  | hook (st : ServerState) (ev : HookEvent) (ts fuel : Nat)
      (st' : ServerState) (b : Block) (hr : Reachable st)
      (h : squareWebhook H D st true ev ts fuel = .appended st' b) : Reachable st'

end Ops

/-- The step checks of the chain-shape invariant: each successive block
links to its predecessor's hash, carries the chain id, and increments
the index by one. -/
def linkedFrom (cid : String) : Block → List Block → Bool
  | _, [] => true
  | p, c :: rest =>
    (c.prevHash == p.hash) && (c.chainId == cid) && (c.index == p.index + 1) &&
    linkedFrom cid c rest

/-- The chain-shape invariant claimed for reachable states: genesis has
`prevHash = "0"` and `index = 0`, and every later block links to its
predecessor, carries the chain id, and increments the index. -/
def chainWF (cid : String) : List Block → Bool
  | [] => true
  | b :: rest => (b.prevHash == "0") && (b.index == 0) && linkedFrom cid b rest

/-- Replace a block's stored `hash` field. -/
def setHash (b : Block) (h : String) : Block := { b with hash := h }

/-- Replace a block's stored `prevHash` field. -/
def setPrevHash (b : Block) (p : String) : Block := { b with prevHash := p }

/-- Positional block access (`chain[i]`), defaulting to `blankBlock`
out of bounds. -/
def blockAt (bc : List Block) (i : Nat) : Block := bc.getD i blankBlock

/-! ### Concrete instances used by witnesses and counterexamples

The digest parameters are universally quantified in every theorem; the
witnesses instantiate them with a trivial constant digest, under which
mining at difficulty ≤ 4 succeeds at nonce 1. -/

/-- Constant stand-in digest for witnesses. -/
def H0 : String → String := fun _ => "0000"

/-- Constant stand-in transaction digest for witnesses. -/
def D0 : String → Rat → String := fun _ _ => "dddd"

/-- The block `mineBlock H0 D0 "cid" 0 "0" "g" 0 2 100 5` produces. -/
def gBlock : Block :=
  { chainId := "cid", blockId := "0000", index := 0, prevHash := "0",
    transactionHash := "dddd", nonce := 1, hash := "0000", timestamp := 100,
    transactionId := "g", amount := 0, miningTimeMs := 0 }

/-- The block `mineBlock H0 D0 "cid" 1 "0000" "t" 5 2 200 5` produces;
`[gBlock, tBlock]` is a valid two-block chain under `H0`. -/
def tBlock : Block :=
  { chainId := "cid", blockId := "0000", index := 1, prevHash := "0000",
    transactionHash := "dddd", nonce := 1, hash := "0000", timestamp := 200,
    transactionId := "t", amount := 5, miningTimeMs := 0 }

/-- `tBlock` with its `prevHash` corrupted: `[gBlock, badBlock]` fails
validation. -/
def badBlock : Block := setPrevHash tBlock "zzzz"

/-- A server state holding the corrupted chain `[gBlock, badBlock]`. -/
def badState : ServerState :=
  { balance := 0, transactionRules := [], blockchain := [gBlock, badBlock],
    difficulty := 2, chainId := "cid" }

/-- A server state holding the valid chain `[gBlock, tBlock]`, with a
zero-amount rule for "p" and a nonzero rule for "q". -/
def demoState : ServerState :=
  { balance := 10, transactionRules := [("p", 0), ("q", 7)],
    blockchain := [gBlock, tBlock], difficulty := 2, chainId := "cid" }

/-! ### Mining lemmas -/

/-- Specification of the nonce-search loop: a successful result is the
first nonce after the starting point whose hash clears the difficulty
prefix, paired with exactly that hash. -/
theorem mineSearch_some (H : String → String) (index : Nat)
    (prevHash txh : String) (ts : Nat) (cid bid : String) (diff : Nat) :
    ∀ (fuel nonce n : Nat) (h : String),
      mineSearch H index prevHash txh ts cid bid diff fuel nonce = some (n, h) →
      nonce < n ∧
      h = calculateHash H index prevHash txh n ts cid bid ∧
      startsWithZeros diff h = true ∧
      ∀ m, nonce < m → m < n →
        startsWithZeros diff (calculateHash H index prevHash txh m ts cid bid) = false := by
  intro fuel
  induction fuel with
  | zero => intro nonce n h hm; simp [mineSearch] at hm
  | succ fuel ih =>
    intro nonce n h hm
    rw [mineSearch] at hm
    by_cases hc : startsWithZeros diff
        (calculateHash H index prevHash txh (nonce + 1) ts cid bid) = true
    · simp only [hc, if_pos] at hm
      obtain ⟨hn, hh⟩ := Prod.mk.injEq .. ▸ Option.some.injEq .. ▸ hm
      refine ⟨?_, ?_, ?_, ?_⟩
      · omega
      · rw [← hh, ← hn]
      · rw [← hh]; exact hc
      · intro m hm1 hm2; omega
    · simp only [hc, if_neg, Bool.not_eq_true] at hm
      rw [Bool.not_eq_true] at hc
      obtain ⟨h1, h2, h3, h4⟩ := ih (nonce + 1) n h hm
      refine ⟨by omega, h2, h3, ?_⟩
      intro m hm1 hm2
      rcases Nat.eq_or_lt_of_le hm1 with heq | hlt
      · have hm' : m = nonce + 1 := by omega
        subst hm'; exact hc
      · exact h4 m hlt hm2

/-- Full specification of a successful `mineBlock` call: every stored
field equals the corresponding input, the nonce is positive and minimal
for the proof-of-work prefix, and the stored hash is the recomputation
at the found nonce. -/
theorem mineBlock_some (H : String → String) (D : String → Rat → String)
    (cid : String) (index : Nat) (prevHash txId : String) (amount : Rat)
    (diff ts fuel : Nat) (b : Block)
    (h : mineBlock H D cid index prevHash txId amount diff ts fuel = some b) :
    b.chainId = cid ∧ b.blockId = makeBlockId H index txId ts ∧
    b.index = index ∧ b.prevHash = prevHash ∧
    b.transactionHash = D txId amount ∧ b.timestamp = ts ∧
    b.transactionId = txId ∧ b.amount = amount ∧ 1 ≤ b.nonce ∧
    b.hash = calculateHash H index prevHash (D txId amount) b.nonce ts cid
      (makeBlockId H index txId ts) ∧
    startsWithZeros diff b.hash = true ∧
    ∀ m, 1 ≤ m → m < b.nonce →
      startsWithZeros diff (calculateHash H index prevHash (D txId amount) m ts cid
        (makeBlockId H index txId ts)) = false := by
  rw [mineBlock] at h
  rcases hms : mineSearch H index prevHash (D txId amount) ts cid
      (makeBlockId H index txId ts) diff fuel 0 with _ | ⟨n, hsh⟩ <;>
    rw [hms] at h
  · exact absurd h (by simp)
  · obtain ⟨h1, h2, h3, h4⟩ := mineSearch_some H index prevHash (D txId amount)
      ts cid (makeBlockId H index txId ts) diff fuel 0 n hsh hms
    cases h
    exact ⟨rfl, rfl, rfl, rfl, rfl, rfl, rfl, rfl, h1, h2, h3, fun m hm1 hm2 => h4 m hm1 hm2⟩

/-- Claim C1: for every index, prev-hash, transaction id, amount and
difficulty d ≥ 0, a completed `mineBlock` call returns a block whose
nonce is the least positive integer whose `calculateHash` value has at
least d leading '0' characters (the search starts at 1 and increments
by 1), and whose stored `hash` is exactly the recomputation of
`calculateHash` over the block's own stored fields. -/
theorem mineBlock_nonce_least_and_hash_exact (H : String → String)
    (D : String → Rat → String) (cid : String) (index : Nat)
    (prevHash txId : String) (amount : Rat) (diff ts fuel : Nat) (b : Block)
    (h : mineBlock H D cid index prevHash txId amount diff ts fuel = some b) :
    1 ≤ b.nonce ∧
    startsWithZeros diff b.hash = true ∧
    (∀ m, 1 ≤ m → m < b.nonce →
      startsWithZeros diff (calculateHash H index prevHash (D txId amount) m ts cid
        (makeBlockId H index txId ts)) = false) ∧
    b.hash = calculateHash H b.index b.prevHash b.transactionHash b.nonce
      b.timestamp b.chainId b.blockId := by
  obtain ⟨hcid, hbid, hidx, hprev, htxh, hts, _, _, hpos, hhash, hpow, hmin⟩ :=
    mineBlock_some H D cid index prevHash txId amount diff ts fuel b h
  refine ⟨hpos, hpow, hmin, ?_⟩
  rw [hcid, hbid, hidx, hprev, htxh, hts, hhash]

/-- Witness for C1 at the constant digest: mining at difficulty 2
yields `gBlock` with nonce 1 and a self-recomputing hash. -/
theorem mineBlock_nonce_least_and_hash_exact_witness :
    1 ≤ gBlock.nonce ∧
    startsWithZeros 2 gBlock.hash = true ∧
    (∀ m, 1 ≤ m → m < gBlock.nonce →
      startsWithZeros 2 (calculateHash H0 0 "0" (D0 "g" 0) m 100 "cid"
        (makeBlockId H0 0 "g" 100)) = false) ∧
    gBlock.hash = calculateHash H0 gBlock.index gBlock.prevHash
      gBlock.transactionHash gBlock.nonce gBlock.timestamp gBlock.chainId
      gBlock.blockId :=
  mineBlock_nonce_least_and_hash_exact H0 D0 "cid" 0 "0" "g" 0 2 100 5 gBlock rfl

/-! ### Validator characterization -/

/-- The boolean pair check unfolded into its five conditions. -/
theorem blockPairOk_iff (H : String → String) (cid : String) (d : Nat)
    (prev curr : Block) :
    blockPairOk H cid d prev curr = true ↔
      (curr.chainId = cid ∧ prev.chainId = cid ∧
       curr.prevHash = prev.hash ∧
       calculateHash H curr.index curr.prevHash curr.transactionHash
         curr.nonce curr.timestamp curr.chainId curr.blockId = curr.hash ∧
       startsWithZeros (min d curr.hash.length) curr.hash = true) := by
  simp [blockPairOk, Bool.and_eq_true, and_assoc]

/-- The validator loop holds of `validFrom p l` iff every adjacent pair
of `p :: l` passes the pair check. -/
theorem validFrom_iff (H : String → String) (cid : String) (d : Nat) :
    ∀ (l : List Block) (p : Block),
      validFrom H cid d p l = true ↔
        ∀ i, i < l.length →
          blockPairOk H cid d (blockAt (p :: l) i) (blockAt l i) = true := by
  intro l
  induction l with
  | nil => intro p; simp [validFrom]
  | cons c rest ih =>
    intro p
    rw [validFrom, Bool.and_eq_true]
    constructor
    · rintro ⟨h1, h2⟩ i hi
      cases i with
      | zero => simpa [blockAt] using h1
      | succ j =>
        have := (ih c).mp h2 j (by simpa using hi)
        simpa [blockAt] using this
    · intro hall
      refine ⟨by simpa [blockAt] using hall 0 (by simp), (ih c).mpr ?_⟩
      intro j hj
      have := hall (j + 1) (by simpa using hj)
      simpa [blockAt] using this

/-- `isBlockchainValid` is true exactly when every adjacent pair of the
chain passes the pair check. -/
theorem isBlockchainValid_iff (H : String → String) (cid : String) (d : Nat)
    (bc : List Block) :
    isBlockchainValid H cid d bc = true ↔
      ∀ i, i + 1 < bc.length →
        blockPairOk H cid d (blockAt bc i) (blockAt bc (i + 1)) = true := by
  cases bc with
  | nil => simp [isBlockchainValid]
  | cons b rest =>
    rw [isBlockchainValid, validFrom_iff]
    constructor
    · intro h i hi
      have := h i (by simpa using hi)
      simpa [blockAt] using this
    · intro h i hi
      have := h i (by simpa using hi)
      simpa [blockAt] using this

/-- Claim C2: empty and single-block chains validate vacuously, and a
chain validates iff for each adjacent pair (prev, curr) starting at
index 1, curr and prev carry the expected chain id, curr links to
prev's stored hash, curr's stored hash equals its recomputation from
curr's own fields, and curr's hash has at least
min(current difficulty, hash length) leading '0' characters — the
chain's current difficulty, blocks storing no mined difficulty. -/
theorem isBlockchainValid_characterization (H : String → String) (cid : String)
    (d : Nat) (bc : List Block) :
    (bc.length ≤ 1 → isBlockchainValid H cid d bc = true) ∧
    (isBlockchainValid H cid d bc = true ↔
      ∀ i, i + 1 < bc.length →
        ((blockAt bc (i + 1)).chainId = cid ∧ (blockAt bc i).chainId = cid ∧
         (blockAt bc (i + 1)).prevHash = (blockAt bc i).hash ∧
         calculateHash H (blockAt bc (i + 1)).index (blockAt bc (i + 1)).prevHash
           (blockAt bc (i + 1)).transactionHash (blockAt bc (i + 1)).nonce
           (blockAt bc (i + 1)).timestamp (blockAt bc (i + 1)).chainId
           (blockAt bc (i + 1)).blockId = (blockAt bc (i + 1)).hash ∧
         startsWithZeros (min d (blockAt bc (i + 1)).hash.length)
           (blockAt bc (i + 1)).hash = true)) := by
  constructor
  · intro hlen
    match bc, hlen with
    | [], _ => rfl
    | [b], _ => rfl
  · rw [isBlockchainValid_iff]
    constructor
    · intro h i hi
      exact (blockPairOk_iff H cid d (blockAt bc i) (blockAt bc (i + 1))).mp (h i hi)
    · intro h i hi
      exact (blockPairOk_iff H cid d (blockAt bc i) (blockAt bc (i + 1))).mpr (h i hi)

/-- Witness for C2: a single-block chain validates, and the valid
two-block demo chain satisfies the pairwise characterization. -/
theorem isBlockchainValid_characterization_witness :
    isBlockchainValid H0 "cid" 2 [gBlock] = true ∧
    isBlockchainValid H0 "cid" 2 [gBlock, tBlock] = true :=
  ⟨(isBlockchainValid_characterization H0 "cid" 2 [gBlock]).1 (by decide),
   (isBlockchainValid_characterization H0 "cid" 2 [gBlock, tBlock]).2.mpr (by
     intro i hi
     have hi' : i + 1 < 2 := by simpa using hi
     have hz : i = 0 := by omega
     subst hz; decide)⟩

/-- Claim C9: every non-array value reaching `isBlockchainValid` —
null, undefined, a number, a string, or a plain object — is declared
valid, so a persisted state whose `blockchain` field was corrupted into
a non-array value passes validation rather than being rejected. -/
theorem isBlockchainValidAny_nonarray_true (H : String → String) (cid : String)
    (d : Nat) (v : ChainField) (hna : ∀ blocks, v ≠ ChainField.arr blocks) :
    isBlockchainValidAny H cid d v = true := by
  cases v with
  | arr blocks => exact absurd rfl (hna blocks)
  | nullv => rfl
  | undef => rfl
  | num q => rfl
  | str s => rfl
  | obj => rfl

/-- Witness for C9 at the null value. -/
theorem isBlockchainValidAny_nonarray_true_witness :
    isBlockchainValidAny H0 "cid" 2 ChainField.nullv = true :=
  isBlockchainValidAny_nonarray_true H0 "cid" 2 ChainField.nullv
    (fun _ h => ChainField.noConfusion h)

/-- The `actual` elapsed time of the difficulty-adjustment window: the
timestamp difference between the last block and the block 5 positions
before it. -/
def windowActual (bc : List Block) : Int :=
  ((bc.getD (bc.length - 1) blankBlock).timestamp : Int) -
    ((bc.getD (bc.length - 5) blankBlock).timestamp : Int)

/-- The `expected` window time: `TARGET_BLOCK_TIME_MS *
DIFFICULTY_ADJUSTMENT_INTERVAL` = 15000 ms. -/
def windowExpected : Int := (TARGET_BLOCK_TIME_MS * DIFFICULTY_ADJUSTMENT_INTERVAL : Nat)

/-- Claim C6: the difficulty changes only when the chain length is
greater than 1 and an exact multiple of 5; in that case, with `actual`
the elapsed time between the timestamps of the window's first and last
blocks and `expected` the target block time (3000 ms) times 5, the
difficulty increases by exactly 1 when `actual < expected / 2`,
decreases by exactly 1 when `actual > expected * 2` and the difficulty
exceeds 1, and is otherwise unchanged; a difficulty of at least 1 never
drops below 1. -/
theorem adjustDifficultyIfNeeded_spec (bc : List Block) (d : Nat) :
    windowExpected = 3000 * 5 ∧
    (¬(1 < bc.length ∧ bc.length % 5 = 0) → adjustDifficultyIfNeeded bc d = d) ∧
    ((1 < bc.length ∧ bc.length % 5 = 0) →
      (windowActual bc < windowExpected / 2 → adjustDifficultyIfNeeded bc d = d + 1) ∧
      (¬windowActual bc < windowExpected / 2 → windowExpected * 2 < windowActual bc →
        1 < d → adjustDifficultyIfNeeded bc d = d - 1) ∧
      (¬windowActual bc < windowExpected / 2 →
        ¬(windowExpected * 2 < windowActual bc ∧ 1 < d) →
        adjustDifficultyIfNeeded bc d = d)) ∧
    (1 ≤ d → 1 ≤ adjustDifficultyIfNeeded bc d) := by
  have hunfold : adjustDifficultyIfNeeded bc d =
      if 1 < bc.length ∧ bc.length % 5 = 0 then
        if windowActual bc < windowExpected / 2 then d + 1
        else if windowExpected * 2 < windowActual bc ∧ 1 < d then d - 1
        else d
      else d := by
    simp only [adjustDifficultyIfNeeded, windowActual, windowExpected,
      DIFFICULTY_ADJUSTMENT_INTERVAL, TARGET_BLOCK_TIME_MS]
  refine ⟨by decide, ?_, ?_, ?_⟩
  · intro h
    rw [hunfold, if_neg h]
  · intro h
    refine ⟨?_, ?_, ?_⟩
    · intro hfast
      rw [hunfold, if_pos h, if_pos hfast]
    · intro hnf hslow hd
      rw [hunfold, if_pos h, if_neg hnf, if_pos ⟨hslow, hd⟩]
    · intro hnf hns
      rw [hunfold, if_pos h, if_neg hnf, if_neg hns]
  · intro hd
    rw [hunfold]
    split
    · split
      · omega
      · split <;> omega
    · omega

/-- Five blocks mined within 1000 ms: the fast-window demo chain. -/
def fastChain : List Block :=
  [{ blankBlock with timestamp := 0 }, { blankBlock with timestamp := 250 },
   { blankBlock with timestamp := 500 }, { blankBlock with timestamp := 750 },
   { blankBlock with timestamp := 1000 }]

/-- Witness for C6: on the fast five-block window the difficulty rises
from 2 to 3, and stays at least 1. -/
theorem adjustDifficultyIfNeeded_spec_witness :
    adjustDifficultyIfNeeded fastChain 2 = 2 + 1 ∧
    1 ≤ adjustDifficultyIfNeeded fastChain 2 :=
  ⟨((adjustDifficultyIfNeeded_spec fastChain 2).2.2.1 (by decide)).1 (by decide),
   (adjustDifficultyIfNeeded_spec fastChain 2).2.2.2 (by decide)⟩

/-! ### Mutation detection (C3) -/

theorem blockAt_set_self (bc : List Block) (i : Nat) (x : Block)
    (h : i < bc.length) : blockAt (bc.set i x) i = x := by
  rw [blockAt, List.getD_eq_getElem?_getD, List.getElem?_set_eq_of_lt x h]
  rfl

theorem blockAt_set_ne (bc : List Block) (i j : Nat) (x : Block)
    (h : i ≠ j) : blockAt (bc.set i x) j = blockAt bc j := by
  rw [blockAt, blockAt, List.getD_eq_getElem?_getD, List.getD_eq_getElem?_getD,
    List.getElem?_set_ne h]

/-- Amendment of claim C3: on a valid chain of length at least 2,
changing any block's stored `hash`, or any non-genesis block's stored
`prevHash`, to a different value makes `isBlockchainValid` return
false.  (The genesis block's `prevHash` and all fields of a
single-block chain are never inspected by the validator — see the
counterexample.) -/
theorem valid_chain_mutation_detected (H : String → String) (cid : String)
    (d : Nat) (bc : List Block) (hv : isBlockchainValid H cid d bc = true)
    (hlen : 2 ≤ bc.length) :
    (∀ i h', i < bc.length → h' ≠ (blockAt bc i).hash →
      isBlockchainValid H cid d (bc.set i (setHash (blockAt bc i) h')) = false) ∧
    (∀ i p', 1 ≤ i → i < bc.length → p' ≠ (blockAt bc i).prevHash →
      isBlockchainValid H cid d (bc.set i (setPrevHash (blockAt bc i) p')) = false) := by
  have hv' := (isBlockchainValid_iff H cid d bc).mp hv
  constructor
  · intro i h' hi hne
    cases hx : isBlockchainValid H cid d (bc.set i (setHash (blockAt bc i) h')) with
    | false => rfl
    | true =>
    exfalso
    have hm' := (isBlockchainValid_iff H cid d _).mp hx
    rcases Nat.eq_zero_or_pos i with hz | hpos
    · subst hz
      have hlen1 : 0 + 1 < (bc.set 0 (setHash (blockAt bc 0) h')).length := by
        rw [List.length_set]; omega
      have hp := (blockPairOk_iff H cid d _ _).mp (hm' 0 hlen1)
      rw [blockAt_set_self bc 0 _ (by omega), blockAt_set_ne bc 0 1 _ (by omega)] at hp
      have horig := (blockPairOk_iff H cid d _ _).mp (hv' 0 (by omega))
      have h1 : (blockAt bc 1).prevHash = h' := by
        have := hp.2.2.1
        simpa [setHash] using this
      have h2 : (blockAt bc 1).prevHash = (blockAt bc 0).hash := by
        simpa using horig.2.2.1
      exact hne (h1.symm.trans h2)
    · have hlen1 : (i - 1) + 1 < (bc.set i (setHash (blockAt bc i) h')).length := by
        rw [List.length_set]; omega
      have hp := (blockPairOk_iff H cid d _ _).mp (hm' (i - 1) hlen1)
      have hi1 : i - 1 + 1 = i := by omega
      rw [hi1, blockAt_set_self bc i _ hi, blockAt_set_ne bc i (i - 1) _ (by omega)] at hp
      have horig := (blockPairOk_iff H cid d _ _).mp (hv' (i - 1) (by omega))
      rw [hi1] at horig
      -- the recomputation over the mutated block's (unchanged) other
      -- fields still produces the original hash, not h'
      have hrec : calculateHash H (blockAt bc i).index (blockAt bc i).prevHash
          (blockAt bc i).transactionHash (blockAt bc i).nonce
          (blockAt bc i).timestamp (blockAt bc i).chainId
          (blockAt bc i).blockId = h' := by
        have := hp.2.2.2.1
        simpa [setHash] using this
      exact hne (hrec.symm.trans horig.2.2.2.1)
  · intro i p' hpos hi hne
    cases hx : isBlockchainValid H cid d (bc.set i (setPrevHash (blockAt bc i) p')) with
    | false => rfl
    | true =>
    exfalso
    have hm' := (isBlockchainValid_iff H cid d _).mp hx
    have hlen1 : (i - 1) + 1 < (bc.set i (setPrevHash (blockAt bc i) p')).length := by
      rw [List.length_set]; omega
    have hp := (blockPairOk_iff H cid d _ _).mp (hm' (i - 1) hlen1)
    have hi1 : i - 1 + 1 = i := by omega
    rw [hi1, blockAt_set_self bc i _ hi, blockAt_set_ne bc i (i - 1) _ (by omega)] at hp
    have horig := (blockPairOk_iff H cid d _ _).mp (hv' (i - 1) (by omega))
    rw [hi1] at horig
    have hlink : p' = (blockAt bc (i - 1)).hash := by
      have := hp.2.2.1
      simpa [setPrevHash] using this
    exact hne (hlink.trans horig.2.2.1.symm)

/-- Witness for the amended C3: corrupting the second block's stored
hash of the valid demo chain is detected. -/
theorem valid_chain_mutation_detected_witness :
    isBlockchainValid H0 "cid" 2
      ([gBlock, tBlock].set 1 (setHash (blockAt [gBlock, tBlock] 1) "1111")) = false :=
  (valid_chain_mutation_detected H0 "cid" 2 [gBlock, tBlock] (by decide)
    (by decide)).1 1 "1111" (by decide) (by decide)

/-- Counterexample to claim C3 as stated: the validator never inspects
a single-block chain (mutating the genesis hash there is undetected)
nor the genesis block's `prevHash` in a longer chain. -/
theorem genesis_mutation_unnoticed :
    isBlockchainValid H0 "cid" 2 [gBlock] = true ∧
    "1111" ≠ gBlock.hash ∧
    isBlockchainValid H0 "cid" 2 [setHash gBlock "1111"] = true ∧
    isBlockchainValid H0 "cid" 2 [gBlock, tBlock] = true ∧
    "1111" ≠ gBlock.prevHash ∧
    isBlockchainValid H0 "cid" 2 [setPrevHash gBlock "1111", tBlock] = true := by
  decide

/-! ### Append postconditions (C4, C5) -/

/-- Specification of a completed append: the new block extends the old
tip at the old length with the requested transaction and amount, the
balance is credited, the chain grows by exactly one block, and the
chain id and rules are untouched. -/
theorem appendCore_some (H : String → String) (D : String → Rat → String)
    (st : ServerState) (txId : String) (amt : Rat) (ts fuel : Nat)
    (st' : ServerState) (b : Block)
    (h : appendCore H D st txId amt ts fuel = some (st', b)) :
    (∃ tip, st.blockchain.getLast? = some tip ∧ b.prevHash = tip.hash) ∧
    b.index = st.blockchain.length ∧
    b.chainId = st.chainId ∧ b.transactionId = txId ∧ b.amount = amt ∧
    st'.blockchain = st.blockchain ++ [b] ∧
    st'.balance = st.balance + amt ∧
    st'.chainId = st.chainId ∧
    st'.transactionRules = st.transactionRules ∧
    st'.difficulty = adjustDifficultyIfNeeded (st.blockchain ++ [b]) st.difficulty ∧
    st'.blockchain.length = st.blockchain.length + 1 := by
  rw [appendCore] at h
  rcases hl : st.blockchain.getLast? with _ | tip
  · rw [hl] at h; exact absurd h (by simp)
  · rw [hl] at h
    dsimp only at h
    rcases hm : mineBlock H D st.chainId st.blockchain.length tip.hash txId amt
        st.difficulty ts fuel with _ | b0
    · rw [hm] at h; exact absurd h (by simp)
    · rw [hm] at h
      dsimp only at h
      obtain ⟨hcid, _, hidx, hprev, _, _, htx, hamt, _⟩ :=
        mineBlock_some H D st.chainId st.blockchain.length tip.hash txId amt
          st.difficulty ts fuel b0 hm
      cases h
      exact ⟨⟨tip, rfl, hprev⟩, hidx, hcid, htx, hamt, rfl, rfl, rfl, rfl, rfl,
        by simp⟩

/-- Claim C4: whenever a deposit append succeeds (in either variant of
the handler), the new block's index equals the old chain length, its
`prevHash` equals the old tip's hash, the balance is the old balance
plus the deposited amount, and the chain length grows by exactly 1. -/
theorem deposit_success_postconditions (H : String → String)
    (D : String → Rat → String) (st : ServerState) (tx : Option String)
    (amt : JNum) (ts fuel : Nat) (st' : ServerState) (b : Block) :
    (deposit H D st tx amt ts fuel = .ok st' b →
      b.index = st.blockchain.length ∧
      (∃ tip, st.blockchain.getLast? = some tip ∧ b.prevHash = tip.hash) ∧
      st'.balance = st.balance + amt.toRat ∧
      st'.blockchain.length = st.blockchain.length + 1) ∧
    (deposit001 H D st tx amt ts fuel = .ok st' b →
      b.index = st.blockchain.length ∧
      (∃ tip, st.blockchain.getLast? = some tip ∧ b.prevHash = tip.hash) ∧
      st'.balance = st.balance + amt.toRat ∧
      st'.blockchain.length = st.blockchain.length + 1) := by
  constructor
  · intro h
    rw [deposit] at h
    split at h
    · exact absurd h (by simp)
    · split at h
      · exact absurd h (by simp)
      · rcases ha : appendCore H D st (tx.getD "") amt.toRat ts fuel
            with _ | ⟨st2, b2⟩
        · rw [ha] at h; exact absurd h (by simp)
        · rw [ha] at h
          dsimp only at h
          cases h
          obtain ⟨htip, hidx, _, _, _, _, hbal, _, _, _, hlen⟩ :=
            appendCore_some H D st (tx.getD "") amt.toRat ts fuel _ _ ha
          exact ⟨hidx, htip, hbal, hlen⟩
  · intro h
    rw [deposit001] at h
    split at h
    · exact absurd h (by simp)
    · rcases ha : appendCore H D st (tx.getD "") amt.toRat ts fuel
          with _ | ⟨st2, b2⟩
      · rw [ha] at h; exact absurd h (by simp)
      · rw [ha] at h
        dsimp only at h
        cases h
        obtain ⟨htip, hidx, _, _, _, _, hbal, _, _, _, hlen⟩ :=
          appendCore_some H D st (tx.getD "") amt.toRat ts fuel _ _ ha
        exact ⟨hidx, htip, hbal, hlen⟩

/-- Witness for C4: a concrete 3-unit deposit onto the valid demo chain
satisfies all four postconditions (both handler variants). -/
theorem deposit_success_postconditions_witness :
    ∃ st' b, deposit H0 D0 demoState (some "w") (JNum.fin 3) 500 5 = .ok st' b ∧
      deposit001 H0 D0 demoState (some "w") (JNum.fin 3) 500 5 = .ok st' b ∧
      b.index = demoState.blockchain.length ∧
      (∃ tip, demoState.blockchain.getLast? = some tip ∧ b.prevHash = tip.hash) ∧
      st'.balance = demoState.balance + (JNum.fin 3).toRat ∧
      st'.blockchain.length = demoState.blockchain.length + 1 := by
  refine ⟨_, _, rfl, rfl, ?_⟩
  have h := (deposit_success_postconditions H0 D0 demoState (some "w")
    (JNum.fin 3) 500 5 _ _).1 rfl
  exact ⟨h.1, h.2.1, h.2.2.1, h.2.2.2⟩

/-- Amendment of claim C5: a missing transaction id, non-finite amount
or amount ≤ 0 is rejected by both deposit variants with no state change
and before any mining (the result is the same for every fuel value,
including 0); on a chain that fails validation the `src/server.js`
deposit and the webhook handler reject with an error and no state
change, and both only ever append after the validator has returned
true.  The `src/unnamed/part_001` deposit handler, however, never calls
the validator (see the counterexample). -/
theorem append_rejection_and_validation (H : String → String)
    (D : String → Rat → String) (st : ServerState) (tx : Option String)
    (amt : JNum) (ts fuel : Nat) :
    ((truthyStr tx = false ∨ amt.isFinite = false ∨ amt.leZero = true) →
      deposit H D st tx amt ts fuel = .badRequest st ∧
      deposit001 H D st tx amt ts fuel = .badRequest st) ∧
    (isBlockchainValid H st.chainId st.difficulty st.blockchain = false →
      truthyStr tx = true → amt.isFinite = true → amt.leZero = false →
      deposit H D st tx amt ts fuel = .chainInvalid st) ∧
    (∀ ev, isBlockchainValid H st.chainId st.difficulty st.blockchain = false →
      squareWebhook H D st true ev ts fuel = .chainInvalid st) ∧
    (∀ st' b, deposit H D st tx amt ts fuel = .ok st' b →
      isBlockchainValid H st.chainId st.difficulty st.blockchain = true) ∧
    (∀ ev st' b, squareWebhook H D st true ev ts fuel = .appended st' b →
      isBlockchainValid H st.chainId st.difficulty st.blockchain = true) := by
  refine ⟨?_, ?_, ?_, ?_, ?_⟩
  · intro h
    have hg : (!truthyStr tx || !amt.isFinite || amt.leZero) = true := by
      rcases h with h | h | h <;> simp [h]
    constructor
    · simp [deposit, hg]
    · simp [deposit001, hg]
  · intro hval ht hf hz
    simp [deposit, ht, hf, hz, hval]
  · intro ev hval
    simp [squareWebhook, hval]
  · intro st' b h
    cases hval : isBlockchainValid H st.chainId st.difficulty st.blockchain with
    | true => rfl
    | false =>
      exfalso
      rw [deposit] at h
      split at h
      · exact absurd h (by simp)
      · simp [hval] at h
  · intro ev st' b h
    cases hval : isBlockchainValid H st.chainId st.difficulty st.blockchain with
    | true => rfl
    | false =>
      exfalso
      rw [squareWebhook] at h
      simp [hval] at h

/-- Witness for the amended C5: a deposit with a missing transaction id
is rejected by both variants with the state untouched, and on the
corrupted demo state a well-formed deposit is rejected by the
`src/server.js` handler as chain-invalid. -/
theorem append_rejection_and_validation_witness :
    (deposit H0 D0 demoState none (JNum.fin 5) 0 0 = .badRequest demoState ∧
     deposit001 H0 D0 demoState none (JNum.fin 5) 0 0 = .badRequest demoState) ∧
    deposit H0 D0 badState (some "t") (JNum.fin 5) 0 0 = .chainInvalid badState :=
  ⟨(append_rejection_and_validation H0 D0 demoState none (JNum.fin 5) 0 0).1
      (Or.inl rfl),
   (append_rejection_and_validation H0 D0 badState (some "t") (JNum.fin 5) 0 0).2.1
      (by decide) rfl rfl (by decide)⟩

/-- Counterexample to claim C5 as stated: the `src/unnamed/part_001`
deposit handler never consults the validator — on a state whose chain
fails validation, a deposit still mines, appends and credits the
balance. -/
theorem deposit001_appends_to_invalid_chain :
    isBlockchainValid H0 badState.chainId badState.difficulty badState.blockchain
        = false ∧
    ∃ st' b, deposit001 H0 D0 badState (some "t") (JNum.fin 5) 400 5 = .ok st' b ∧
      st'.balance = badState.balance + 5 ∧
      st'.blockchain.length = badState.blockchain.length + 1 := by
  exact ⟨by decide, _, _, rfl, rfl, rfl⟩

/-! ### Chain-shape invariant of reachable states (C7) -/

theorem linkedFrom_last (cid : String) :
    ∀ (l : List Block) (p q : Block), linkedFrom cid p l = true →
      (p :: l).getLast? = some q → q.index = p.index + l.length := by
  intro l
  induction l with
  | nil =>
    intro p q _ hq
    cases hq
    rfl
  | cons c rest ih =>
    intro p q hl hq
    rw [linkedFrom] at hl
    simp only [Bool.and_eq_true, beq_iff_eq] at hl
    rw [List.getLast?_cons_cons] at hq
    have := ih c q (by
      have := hl.2
      simpa using this) hq
    have hidx : c.index = p.index + 1 := hl.1.2
    simp only [List.length_cons]
    omega

theorem linkedFrom_snoc (cid : String) :
    ∀ (l : List Block) (p q c : Block), linkedFrom cid p l = true →
      (p :: l).getLast? = some q →
      c.prevHash = q.hash → c.chainId = cid → c.index = q.index + 1 →
      linkedFrom cid p (l ++ [c]) = true := by
  intro l
  induction l with
  | nil =>
    intro p q c _ hq h1 h2 h3
    cases hq
    simp [linkedFrom, h1, h2, h3]
  | cons x rest ih =>
    intro p q c hl hq h1 h2 h3
    rw [linkedFrom] at hl
    simp only [Bool.and_eq_true] at hl
    rw [List.getLast?_cons_cons] at hq
    rw [List.cons_append, linkedFrom]
    simp only [Bool.and_eq_true]
    exact ⟨hl.1, ih x q c hl.2 hq h1 h2 h3⟩

/-- A well-formed chain's last block sits at index `length - 1`. -/
theorem chainWF_last_index (cid : String) (bc : List Block) (q : Block)
    (hwf : chainWF cid bc = true) (hq : bc.getLast? = some q) :
    q.index + 1 = bc.length := by
  cases bc with
  | nil => cases hq
  | cons b0 rest =>
    rw [chainWF] at hwf
    simp only [Bool.and_eq_true, beq_iff_eq] at hwf
    have := linkedFrom_last cid rest b0 q (by
      have := hwf.2
      simpa using this) hq
    have h0 : b0.index = 0 := hwf.1.2
    simp only [List.length_cons]
    omega

/-- Appending a block that links to the tip, carries the chain id, and
sits at index = length preserves the chain-shape invariant. -/
theorem chainWF_snoc (cid : String) (bc : List Block) (q b : Block)
    (hwf : chainWF cid bc = true) (hq : bc.getLast? = some q)
    (h1 : b.prevHash = q.hash) (h2 : b.chainId = cid)
    (h3 : b.index = bc.length) : chainWF cid (bc ++ [b]) = true := by
  cases bc with
  | nil => cases hq
  | cons b0 rest =>
    rw [chainWF] at hwf
    simp only [Bool.and_eq_true, beq_iff_eq] at hwf
    have hlast := chainWF_last_index cid (b0 :: rest) q (by
      rw [chainWF]
      simp only [Bool.and_eq_true, beq_iff_eq]
      exact hwf) hq
    have h3' : b.index = q.index + 1 := by
      simp only [List.length_cons] at h3 hlast
      omega
    rw [List.cons_append, chainWF]
    simp only [Bool.and_eq_true, beq_iff_eq]
    refine ⟨⟨hwf.1.1, hwf.1.2⟩, ?_⟩
    have := linkedFrom_snoc cid rest b0 q b (by
      have := hwf.2
      simpa using this) hq h1 h2 h3'
    simpa using this

/-- Genesis initialization produces a well-formed chain: indices 0,1,2,
genesis `prevHash = "0"`, each block linking to its predecessor and
carrying the chain id. -/
theorem initGenesis_wf (H : String → String) (D : String → Rat → String)
    (cid : String) (rules : Rules) (d : Nat) (ts1 ts2 ts3 fuel : Nat)
    (bc : List Block)
    (h : initGenesis H D cid rules d ts1 ts2 ts3 fuel = some bc) :
    chainWF cid bc = true := by
  rw [initGenesis] at h
  rcases h1 : mineBlock H D cid 0 "0" "nynvg5vw3srg1g3k5qmqqe13x"
      ((rules.lookup "nynvg5vw3srg1g3k5qmqqe13x").getD 0) d ts1 fuel with _ | g1
  · rw [h1] at h; exact absurd h (by simp)
  · rw [h1] at h
    dsimp only at h
    rcases h2 : mineBlock H D cid 1 g1.hash "9KWCWTX3D"
        ((rules.lookup "9KWCWTX3D").getD 0) d ts2 fuel with _ | g2
    · rw [h2] at h; exact absurd h (by simp)
    · rw [h2] at h
      dsimp only at h
      rcases h3 : mineBlock H D cid 2 g2.hash ((rules.map Prod.fst).getLastD "undefined")
          ((rules.lookup ((rules.map Prod.fst).getLastD "undefined")).getD 0) d ts3 fuel
          with _ | g3
      · rw [h3] at h; exact absurd h (by simp)
      · rw [h3] at h
        dsimp only at h
        cases h
        obtain ⟨hc1, _, hi1, hp1, _⟩ := mineBlock_some _ _ _ _ _ _ _ _ _ _ _ h1
        obtain ⟨hc2, _, hi2, hp2, _⟩ := mineBlock_some _ _ _ _ _ _ _ _ _ _ _ h2
        obtain ⟨hc3, _, hi3, hp3, _⟩ := mineBlock_some _ _ _ _ _ _ _ _ _ _ _ h3
        simp [chainWF, linkedFrom, hc1, hc2, hc3, hi1, hi2, hi3, hp1, hp2, hp3]

/-- A completed append preserves the chain-shape invariant. -/
theorem appendCore_wf (H : String → String) (D : String → Rat → String)
    (st : ServerState) (txId : String) (amt : Rat) (ts fuel : Nat)
    (st' : ServerState) (b : Block)
    (h : appendCore H D st txId amt ts fuel = some (st', b))
    (hwf : chainWF st.chainId st.blockchain = true) :
    chainWF st'.chainId st'.blockchain = true := by
  obtain ⟨⟨tip, hlast, hprev⟩, hidx, hcid, _, _, hbc, _, hcid', _, _, _⟩ :=
    appendCore_some H D st txId amt ts fuel st' b h
  rw [hcid', hbc]
  exact chainWF_snoc st.chainId st.blockchain tip b hwf hlast hprev hcid hidx

/-- A successful deposit is exactly a completed append. -/
theorem deposit_ok_appendCore (H : String → String) (D : String → Rat → String)
    (st : ServerState) (tx : Option String) (amt : JNum) (ts fuel : Nat)
    (st' : ServerState) (b : Block)
    (h : deposit H D st tx amt ts fuel = .ok st' b) :
    appendCore H D st (tx.getD "") amt.toRat ts fuel = some (st', b) := by
  rw [deposit] at h
  split at h
  · exact absurd h (by simp)
  · split at h
    · exact absurd h (by simp)
    · rcases ha : appendCore H D st (tx.getD "") amt.toRat ts fuel with _ | ⟨st2, b2⟩
      · rw [ha] at h; exact absurd h (by simp)
      · rw [ha] at h
        dsimp only at h
        cases h
        rfl

/-- A webhook append is exactly a completed append of a nonzero
configured rule amount. -/
theorem squareWebhook_appended_appendCore (H : String → String)
    (D : String → Rat → String) (st : ServerState) (sigOk : Bool)
    (ev : HookEvent) (ts fuel : Nat) (st' : ServerState) (b : Block)
    (h : squareWebhook H D st sigOk ev ts fuel = .appended st' b) :
    ∃ q, st.transactionRules.lookup ev.dataId = some q ∧ q ≠ 0 ∧
      appendCore H D st ev.dataId q ts fuel = some (st', b) := by
  rw [squareWebhook] at h
  split at h
  · exact absurd h (by simp)
  · split at h
    · exact absurd h (by simp)
    · split at h
      · rcases hl : st.transactionRules.lookup ev.dataId with _ | q
        · rw [hl] at h; exact absurd h (by simp)
        · rw [hl] at h
          dsimp only at h
          by_cases hq : q = 0
          · subst hq; exact absurd h (by simp)
          · rw [if_neg (by simpa using hq)] at h
            rcases ha : appendCore H D st ev.dataId q ts fuel with _ | ⟨st2, b2⟩
            · rw [ha] at h; exact absurd h (by simp)
            · rw [ha] at h
              dsimp only at h
              cases h
              exact ⟨q, rfl, hq, ha⟩
      · exact absurd h (by simp)

/-- Claim C7: every state reachable by genesis initialization and
appends has `blocks[0].prevHash = "0"`, `blocks[0].index = 0`, and for
every i > 0, `blocks[i].prevHash = blocks[i-1].hash`,
`blocks[i].chainId = chainId` and `blocks[i].index =
blocks[i-1].index + 1`. -/
theorem reachable_chain_invariants (H : String → String)
    (D : String → Rat → String) (st : ServerState)
    (h : Reachable H D st) : chainWF st.chainId st.blockchain = true := by
  induction h with
  | boot balance rules difficulty cid ts1 ts2 ts3 fuel bc hg =>
    exact initGenesis_wf H D cid rules difficulty ts1 ts2 ts3 fuel bc hg
  | dep st tx amt ts fuel st' b hr hd ih =>
    exact appendCore_wf H D st (tx.getD "") amt.toRat ts fuel st' b
      (deposit_ok_appendCore H D st tx amt ts fuel st' b hd) ih
  | hook st ev ts fuel st' b hr hh ih =>
    obtain ⟨q, _, _, ha⟩ :=
      squareWebhook_appended_appendCore H D st true ev ts fuel st' b hh
    exact appendCore_wf H D st ev.dataId q ts fuel st' b ha ih

/-- The rules used by the demo genesis chain. -/
def rules0 : Rules := [("a", 1)]

/-- The chain `initGenesis H0 D0 "cid" rules0 2 100 200 300 5`
produces. -/
def demoGenesis : List Block :=
  [{ chainId := "cid", blockId := "0000", index := 0, prevHash := "0",
     transactionHash := "dddd", nonce := 1, hash := "0000", timestamp := 100,
     transactionId := "nynvg5vw3srg1g3k5qmqqe13x", amount := 0, miningTimeMs := 0 },
   { chainId := "cid", blockId := "0000", index := 1, prevHash := "0000",
     transactionHash := "dddd", nonce := 1, hash := "0000", timestamp := 200,
     transactionId := "9KWCWTX3D", amount := 0, miningTimeMs := 0 },
   { chainId := "cid", blockId := "0000", index := 2, prevHash := "0000",
     transactionHash := "dddd", nonce := 1, hash := "0000", timestamp := 300,
     transactionId := "a", amount := 1, miningTimeMs := 0 }]

/-- Witness for C7: the state freshly booted from the demo genesis
chain satisfies the chain-shape invariant. -/
theorem reachable_chain_invariants_witness :
    chainWF "cid" demoGenesis = true :=
  reachable_chain_invariants H0 D0 ⟨0, rules0, demoGenesis, 2, "cid"⟩
    (Reachable.boot 0 rules0 2 "cid" 100 200 300 5 demoGenesis rfl)

/-! ### Startup behaviour (C8) -/

/-- Amendment of claim C8: at startup the `src/unnamed/part_001`
variant reinitializes the chain with freshly mined genesis blocks when
the persisted chain is absent, empty, or fails validation, and keeps it
unchanged otherwise; the `src/server.js` variant reinitializes only
when the chain is absent or empty — a loaded non-empty chain that fails
validation is kept unchanged (see the counterexample). -/
theorem startup_reinitialization_spec (H : String → String)
    (D : String → Rat → String) (cid : String) (rules : Rules) (d : Nat)
    (ts1 ts2 ts3 fuel : Nat) :
    (startupChain H D none cid rules d ts1 ts2 ts3 fuel =
      initGenesis H D cid rules d ts1 ts2 ts3 fuel) ∧
    (∀ bc : List Block, bc.length = 0 →
      startupChain H D (some bc) cid rules d ts1 ts2 ts3 fuel =
        initGenesis H D cid rules d ts1 ts2 ts3 fuel) ∧
    (∀ bc : List Block, bc.length ≠ 0 →
      startupChain H D (some bc) cid rules d ts1 ts2 ts3 fuel = some bc) ∧
    (startupChain001 H D none cid rules d ts1 ts2 ts3 fuel =
      initGenesis001 H D cid rules d ts1 ts2 ts3 fuel) ∧
    (∀ bc : List Block,
      (isBlockchainValid H cid d bc = false ∨ bc.length = 0) →
      startupChain001 H D (some bc) cid rules d ts1 ts2 ts3 fuel =
        initGenesis001 H D cid rules d ts1 ts2 ts3 fuel) ∧
    (∀ bc : List Block, isBlockchainValid H cid d bc = true → bc.length ≠ 0 →
      startupChain001 H D (some bc) cid rules d ts1 ts2 ts3 fuel = some bc) := by
  refine ⟨rfl, ?_, ?_, rfl, ?_, ?_⟩
  · intro bc hlen
    simp [startupChain, hlen]
  · intro bc hlen
    simp [startupChain, hlen]
  · intro bc hinv
    rcases hinv with hinv | hinv <;> simp [startupChain001, hinv]
  · intro bc hval hlen
    simp [startupChain001, hval, hlen]

/-- Witness for the amended C8: a valid non-empty chain is kept at
startup by both variants, and an empty chain triggers genesis mining
that yields the demo genesis chain. -/
theorem startup_reinitialization_spec_witness :
    startupChain H0 D0 (some [gBlock]) "cid" rules0 2 100 200 300 5 =
      some [gBlock] ∧
    startupChain001 H0 D0 (some [gBlock]) "cid" rules0 2 100 200 300 5 =
      some [gBlock] ∧
    startupChain H0 D0 (some []) "cid" rules0 2 100 200 300 5 =
      initGenesis H0 D0 "cid" rules0 2 100 200 300 5 :=
  ⟨(startup_reinitialization_spec H0 D0 "cid" rules0 2 100 200 300 5).2.2.1
      [gBlock] (by decide),
   (startup_reinitialization_spec H0 D0 "cid" rules0 2 100 200 300 5).2.2.2.2.2
      [gBlock] (by decide) (by decide),
   (startup_reinitialization_spec H0 D0 "cid" rules0 2 100 200 300 5).2.1
      [] rfl⟩

/-- Counterexample to claim C8 as stated: the `src/server.js` startup
(`if (!blockchain || blockchain.length === 0)`) keeps a loaded
non-empty chain that fails validation instead of reinitializing it. -/
theorem startup_keeps_invalid_chain :
    isBlockchainValid H0 "cid" 2 [gBlock, badBlock] = false ∧
    startupChain H0 D0 (some [gBlock, badBlock]) "cid" rules0 2 100 200 300 5 =
      some [gBlock, badBlock] :=
  ⟨by decide, rfl⟩

/-! ### Webhook frame effect (C10) -/

/-- Claim C10: a `payment.created` event whose payment id has no rule,
or whose rule amount is 0 (JS falsiness of
`transactionRules[paymentId]`), leaves the handler at its 200 OK
response with the state — blockchain, balance, difficulty — exactly
unchanged; a block is appended only for a nonzero rule amount, and the
appended amount and credited balance come from the configured rule,
never from the event payload (`ev.payloadAmount` is universally
quantified and never read). -/
theorem webhook_frame_and_rule_amount (H : String → String)
    (D : String → Rat → String) (st : ServerState) (ev : HookEvent)
    (ts fuel : Nat) (htype : ev.type = "payment.created")
    (hvalid : isBlockchainValid H st.chainId st.difficulty st.blockchain = true) :
    ((st.transactionRules.lookup ev.dataId = none ∨
      st.transactionRules.lookup ev.dataId = some 0) →
      squareWebhook H D st true ev ts fuel = .okUnchanged st) ∧
    (∀ st' b, squareWebhook H D st true ev ts fuel = .appended st' b →
      ∃ q, st.transactionRules.lookup ev.dataId = some q ∧ q ≠ 0 ∧
        b.amount = q ∧ b.transactionId = ev.dataId ∧
        st'.balance = st.balance + q) := by
  constructor
  · intro hrule
    rcases hrule with hrule | hrule <;>
      simp [squareWebhook, hvalid, htype, hrule]
  · intro st' b h
    obtain ⟨q, hl, hq, ha⟩ :=
      squareWebhook_appended_appendCore H D st true ev ts fuel st' b h
    obtain ⟨_, _, _, htx, hamt, _, hbal, _⟩ :=
      appendCore_some H D st ev.dataId q ts fuel st' b ha
    exact ⟨q, hl, hq, hamt, htx, hbal⟩

/-- Witness for C10: on the valid demo state, a `payment.created` event
for id "p" (whose configured rule amount is 0) yields a 200 response
with the state unchanged; its payload amount of 99 is ignored. -/
theorem webhook_frame_and_rule_amount_witness :
    squareWebhook H0 D0 demoState true ⟨"payment.created", "p", 99⟩ 600 5 =
      .okUnchanged demoState :=
  (webhook_frame_and_rule_amount H0 D0 demoState ⟨"payment.created", "p", 99⟩
    600 5 rfl (by decide)).1 (Or.inr rfl)

end IncCash
